import Mathlib

/-!
Shallow embedding of `src/inventory_system.py` (class `InventoryManager`).

The store state `stock_data` is a Python `dict` from item name to quantity;
it is modelled as an insertion-ordered association list `Stock` together
with the dict primitives `dictGet`, `dictSet`, `dictDel`, `dictMem`, which
reproduce Python dict semantics (lookup of the unique key, in-place update
of an existing key, append of a fresh key, deletion).

Python exceptions become `Except InvErr`: `ValueError` (the spec's
`InvalidArgument`) and `KeyError` (the spec's `NotFound`).  The
nondeterministic `datetime.now().isoformat(timespec="seconds")` timestamp
is passed in as an explicit string parameter `ts`.  File contents for
`load_data`/`save_data` are modelled by `FileState`: the file may be
absent (`FileNotFoundError`), unreadable (`OSError`), unparsable
(`json.JSONDecodeError`), or hold a parsed JSON value `JVal`.
-/

namespace InventorySystem

/-- Model of Python `str.strip()` with no argument: drop leading and
trailing whitespace characters.  (Lean's own `String.trim` is defined by
well-founded recursion on byte positions and does not reduce in the
kernel, so the strip is written structurally on the character list.) -/
def pyStrip (s : String) : String :=
  String.mk (((s.data.dropWhile Char.isWhitespace).reverse.dropWhile
    Char.isWhitespace).reverse)

/-- The `stock_data` mapping: item name to quantity, insertion-ordered. -/
abbrev Stock := List (String × Int)

/-- Python `key in d` on the stock dict. -/
def dictMem (k : String) : Stock → Bool
  | [] => false
  | p :: rest => p.1 == k || dictMem k rest

/-- Python `d.get(k, dflt)` on the stock dict: the value at the (unique)
key `k`, else the default. -/
def dictGet (d : Stock) (k : String) (dflt : Int) : Int :=
  match d with
  | [] => dflt
  | p :: rest => if p.1 == k then p.2 else dictGet rest k dflt

/-- Python `d[k] = v` on the stock dict: update the (unique) existing
key in place, keeping its position, or append a fresh key at the end. -/
def dictSet (d : Stock) (k : String) (v : Int) : Stock :=
  match d with
  | [] => [(k, v)]
  | p :: rest => if p.1 == k then (k, v) :: rest else p :: dictSet rest k v

/-- Python `del d[k]` on the stock dict. -/
def dictDel (d : Stock) (k : String) : Stock :=
  d.filter (fun p => p.1 != k)

/-- The two exception kinds the inventory operations raise:
`ValueError` (spec: `InvalidArgument`) and `KeyError` (spec: `NotFound`). -/
inductive InvErr where
  | invalidArgument
  | notFound
  deriving DecidableEq, Repr

deriving instance DecidableEq for Except

/-- Embedding of `InventoryManager.add_item(item, qty=0, logs=None)` (lines 21-46).
Validates `item` (must strip to non-empty) and `qty` (must be `>= 0`),
then stores `current + qty` under the verbatim (untrimmed) key.  The
second component of the result is the content, after the `logs.append`
of line 39, of the list object the code appended to: the caller's list
when `logs` was supplied, or the fresh local list created at line 37
when `logs is None` (the source then discards that local list, so the
caller never sees it).  `ts` stands for the `datetime.now()` timestamp. -/
def addItem (stock : Stock) (item : String) (qty : Int)
    (logs : Option (List String)) (ts : String) :
    Except InvErr (Stock × List String) :=
  if (pyStrip item).isEmpty then .error .invalidArgument
  else if qty < 0 then .error .invalidArgument
  else
    let current := dictGet stock item 0
    let newStock := dictSet stock item (current + qty)
    let logs0 := logs.getD []
    .ok (newStock, logs0 ++ [ts ++ ": Added " ++ toString qty ++ " of " ++ item])

/-- Embedding of `InventoryManager.remove_item(item, qty)` (lines 48-68).  Validates
`item` and `qty > 0`, raises `KeyError` when the item is absent, then
stores `old - qty` when that is `> 0` and deletes the key otherwise. -/
def removeItem (stock : Stock) (item : String) (qty : Int) :
    Except InvErr Stock :=
  if (pyStrip item).isEmpty then .error .invalidArgument
  else if qty ≤ 0 then .error .invalidArgument
  else if !(dictMem item stock) then .error .notFound
  else
    let newQty := dictGet stock item 0 - qty
    if newQty > 0 then .ok (dictSet stock item newQty)
    else .ok (dictDel stock item)

/-- Embedding of `InventoryManager.get_qty(item)` (lines 70-74): validates `item`,
then returns `stock_data.get(item, 0)`. -/
def getQty (stock : Stock) (item : String) : Except InvErr Int :=
  if (pyStrip item).isEmpty then .error .invalidArgument
  else .ok (dictGet stock item 0)

/-- Embedding of `InventoryManager.check_low_items(threshold=5)` (lines 132-136):
validates `threshold >= 0`, then returns the names of the entries whose
quantity is strictly below the threshold, in mapping iteration order. -/
def checkLowItems (stock : Stock) (threshold : Int) :
    Except InvErr (List String) :=
  if threshold < 0 then .error .invalidArgument
  else .ok ((stock.filter (fun p => p.2 < threshold)).map Prod.fst)

/-- Parsed JSON values as produced by Python `json.load`: object keys
are always strings, `true`/`false` parse to Python `bool`, integer
literals to `int`, other numbers to `float`. -/
inductive JVal where
  | jnull
  | jbool (b : Bool)
  | jint (n : Int)
  | jfloat
  | jstr (s : String)
  | jarr (elems : List JVal)
  | jobj (fields : List (String × JVal))

/-- Whether the parsed value is a JSON object (`isinstance(data, dict)`). -/
def JVal.isObj : JVal → Bool
  | .jobj _ => true
  | _ => false

/-- Python `isinstance(value, int)` on a parsed JSON value, returning the
integer value when it holds.  In Python `bool` is a subclass of `int`,
so `isinstance(True, int)` is `True` and `True` compares equal to `1`;
hence JSON booleans pass the check of lines 86-90 with values 1 and 0. -/
def pyIntOfJVal : JVal → Option Int
  | .jint n => some n
  | .jbool b => some (if b then 1 else 0)
  | _ => none

/-- One iteration of the cleaning loop of `load_data` (lines 85-97):
keep the entry via `cleaned[key] = value` when
`isinstance(key, str) and isinstance(value, int) and value >= 0`
(the key check always holds: `json.load` keys are strings), else drop it
with a warning log. -/
def cleanStep (acc : Stock) (kv : String × JVal) : Stock :=
  match pyIntOfJVal kv.2 with
  | some n => if 0 ≤ n then dictSet acc kv.1 n else acc
  | none => acc

/-- The cleaning loop of `load_data` (lines 84-97): fold `cleanStep`
over the object members starting from the empty dict `cleaned = {}`. -/
def cleanFields (fields : List (String × JVal)) : Stock :=
  fields.foldl cleanStep []

/-- Outcome of opening and parsing the file named in `load_data`. -/
inductive FileState where
  | absent
  | ioError
  | invalidJson
  | json (v : JVal)

/-- Embedding of `InventoryManager.load_data(file_path)` (lines 76-113) as a state
transformer on `stock_data`.  A missing file resets the store to empty;
an `OSError`, a JSON parse error, or a top-level value that is not an
object is caught by the `except` clauses, which only log, so the prior
state is kept; a JSON object replaces the store with the cleaned
mapping.  The function is total: no exception escapes to the caller. -/
def loadData (stock : Stock) (file : FileState) : Stock :=
  match file with
  | .absent => []
  | .ioError => stock
  | .invalidJson => stock
  | .json (.jobj fields) => cleanFields fields
  | .json _ => stock

/-- Embedding of `InventoryManager.save_data(file_path)` (lines 115-124): serialize
the whole mapping as one JSON object, member per entry, in order. -/
def saveData (stock : Stock) : FileState :=
  .json (.jobj (stock.map (fun p => (p.1, JVal.jint p.2))))

/-- Run a sequence of `add_item(item, qty_i)` calls for one item name,
stopping at the first raised exception.  Timestamps do not affect the
stock, so a fixed `ts` is used. -/
def addSeq (stock : Stock) (item : String) : List Int → Except InvErr Stock
  | [] => .ok stock
  | q :: rest =>
    match addItem stock item q none "t" with
    | .ok (s, _) => addSeq s item rest
    | .error e => .error e

/-- The cleaning rule exactly as the spec words it (sections on
`load_data`): keep entries whose value is a non-negative integer,
drop all other entries.  A JSON boolean is not an integer under this
reading, so it is dropped.  This definition exists only to be compared
with the behaviour of the source (`cleanFields`). -/
def specCleanFields (fields : List (String × JVal)) : Stock :=
  fields.foldl
    (fun acc kv =>
      match kv.2 with
      | .jint n => if 0 ≤ n then dictSet acc kv.1 n else acc
      | _ => acc) []

/-- The entry-keeping rule of the cleaning loop as a `filterMap`
function: the kept `(key, value)` pair, in Python-int terms. -/
def keepEntry (kv : String × JVal) : Option (String × Int) :=
  match pyIntOfJVal kv.2 with
  | some n => if 0 ≤ n then some (kv.1, n) else none
  | none => none

section DictLemmas

theorem dictGet_dictSet_self (d : Stock) (k : String) (v : Int) :
    dictGet (dictSet d k v) k 0 = v := by
  induction d with
  | nil => simp [dictSet, dictGet]
  | cons p rest ih =>
    by_cases h : p.1 = k
    · simp [dictSet, dictGet, h]
    · simp [dictSet, dictGet, h, ih]

theorem dictGet_dictSet_ne (d : Stock) {k k' : String} (v : Int)
    (h : k' ≠ k) : dictGet (dictSet d k v) k' 0 = dictGet d k' 0 := by
  induction d with
  | nil => simp [dictSet, dictGet, Ne.symm h]
  | cons p rest ih =>
    by_cases hp : p.1 = k
    · simp [dictSet, dictGet, hp, h, Ne.symm h]
    · by_cases hp' : p.1 = k'
      · simp [dictSet, dictGet, hp, hp', h, Ne.symm h]
      · simp [dictSet, dictGet, hp, hp', ih]

theorem dictMem_dictSet_ne (d : Stock) {k k' : String} (v : Int)
    (h : k' ≠ k) : dictMem k' (dictSet d k v) = dictMem k' d := by
  induction d with
  | nil => simp [dictSet, dictMem, Ne.symm h]
  | cons p rest ih =>
    by_cases hp : p.1 = k
    · simp [dictSet, dictMem, hp, h, Ne.symm h]
    · simp [dictSet, dictMem, hp, ih]

theorem dictMem_dictDel (d : Stock) (k : String) :
    dictMem k (dictDel d k) = false := by
  induction d with
  | nil => simp [dictDel, dictMem]
  | cons p rest ih =>
    by_cases hp : p.1 = k
    · simpa [dictDel, dictMem, hp] using ih
    · simpa [dictDel, dictMem, hp] using ih

theorem dictGet_of_not_mem {d : Stock} {k : String}
    (h : dictMem k d = false) (dflt : Int) : dictGet d k dflt = dflt := by
  induction d with
  | nil => simp [dictGet]
  | cons p rest ih =>
    simp [dictMem] at h
    simp [dictGet, h.1, ih h.2]

theorem dictSet_of_not_mem {d : Stock} {k : String}
    (h : dictMem k d = false) (v : Int) : dictSet d k v = d ++ [(k, v)] := by
  induction d with
  | nil => simp [dictSet]
  | cons p rest ih =>
    simp [dictMem] at h
    simp [dictSet, h.1, ih h.2]

theorem dictMem_append (k : String) (d1 d2 : Stock) :
    dictMem k (d1 ++ d2) = (dictMem k d1 || dictMem k d2) := by
  induction d1 with
  | nil => simp [dictMem]
  | cons p rest ih => simp [dictMem, ih, Bool.or_assoc]

theorem dictMem_dictSet_self (d : Stock) (k : String) (v : Int) :
    dictMem k (dictSet d k v) = true := by
  induction d with
  | nil => simp [dictSet, dictMem]
  | cons p rest ih =>
    by_cases hp : p.1 = k
    · simp [dictSet, dictMem, hp]
    · simp [dictSet, dictMem, hp, ih]

end DictLemmas

/-- C2: when `load_data` meets an I/O error, a JSON parse error, or a
top-level value that is not a JSON object, it returns without raising
(`loadData` is a total function: the `except` clauses of lines 112-113
only log) and `stock_data` keeps its prior value, whatever that was. -/
theorem load_failure_preserves_state (stock : Stock) (v : JVal)
    (h : v.isObj = false) :
    loadData stock .ioError = stock ∧
    loadData stock .invalidJson = stock ∧
    loadData stock (.json v) = stock := by
  refine ⟨rfl, rfl, ?_⟩
  cases v <;> first
    | rfl
    | simp [JVal.isObj] at h

theorem load_failure_preserves_state_witness :
    JVal.isObj (.jarr [.jint 1]) = false ∧
    (loadData [("apple", 7)] .ioError = [("apple", 7)] ∧
     loadData [("apple", 7)] .invalidJson = [("apple", 7)] ∧
     loadData [("apple", 7)] (.json (.jarr [.jint 1])) = [("apple", 7)]) :=
  ⟨rfl, load_failure_preserves_state [("apple", 7)] (.jarr [.jint 1]) rfl⟩

/-- C6: `remove_item` on an item absent from the mapping, called with a
valid item name and a positive quantity, raises `KeyError` (`NotFound`).
In the embedding an error result carries no successor state: the check
of lines 54-55 runs before any mutation, so the store is unchanged and
the key is never created. -/
theorem remove_absent_not_found (stock : Stock) (item : String) (qty : Int)
    (hitem : (pyStrip item).isEmpty = false) (hqty : 0 < qty)
    (habs : dictMem item stock = false) :
    removeItem stock item qty = .error .notFound := by
  have hq : ¬ qty ≤ 0 := by omega
  simp [removeItem, hitem, hq, habs]

theorem remove_absent_not_found_witness :
    ((pyStrip "orange").isEmpty = false ∧ (0 : Int) < 1 ∧
      dictMem "orange" [("apple", 7)] = false) ∧
    removeItem [("apple", 7)] "orange" 1 = .error .notFound :=
  ⟨by decide,
    remove_absent_not_found [("apple", 7)] "orange" 1 (by decide) (by decide)
      (by decide)⟩

/-- C7: `add_item` with an item name that strips to empty, or with a
negative quantity, raises `ValueError` (`InvalidArgument`): the checks
of lines 28-31 run before any mutation, so an error result leaves the
store untouched.  (Non-integer quantities are outside the typed
embedding: `qty` is an integer by type.) -/
theorem add_invalid_args_rejected (stock : Stock) (item : String)
    (qty : Int) (logs : Option (List String)) (ts : String)
    (h : (pyStrip item).isEmpty = true ∨ qty < 0) :
    addItem stock item qty logs ts = .error .invalidArgument := by
  rcases h with h | h
  · simp [addItem, h]
  · by_cases h2 : (pyStrip item).isEmpty <;> simp [addItem, h, h2]

theorem add_invalid_args_rejected_witness :
    ((pyStrip "banana").isEmpty = true ∨ (-2 : Int) < 0) ∧
    addItem [] "banana" (-2) none "t" = .error .invalidArgument ∧
    ((pyStrip "   ").isEmpty = true ∨ (1 : Int) < 0) ∧
    addItem [("pear", 3)] "   " 1 none "t" = .error .invalidArgument :=
  ⟨Or.inr (by decide),
    add_invalid_args_rejected [] "banana" (-2) none "t" (Or.inr (by decide)),
    Or.inl (by decide),
    add_invalid_args_rejected [("pear", 3)] "   " 1 none "t"
      (Or.inl (by decide))⟩

/-- C1 counterexample: `add_item` CAN leave a zero-quantity entry.
`add_item("x", 0)` on the empty store passes the validation of line 30
(`qty >= 0` admits 0) and line 34 stores `0 + 0 = 0` under the fresh
key, so after this successful call the key `"x"` is present and maps
to zero — against the claim that after any successful `add_item` no
key maps to zero. -/
theorem add_item_can_store_zero :
    addItem [] "x" 0 none "t" = .ok ([("x", 0)], ["t: Added 0 of x"]) ∧
    dictMem "x" [("x", (0 : Int))] = true ∧
    dictGet [("x", (0 : Int))] "x" 0 = 0 := by
  decide

/-- C1 amended: `remove_item` never leaves a zero-quantity entry — when
it succeeds with `qty` at least the current quantity, the key is deleted
(lines 57-61) — and `add_item` with a strictly positive `qty` leaves the
target key strictly positive whenever its prior quantity is
non-negative; but `add_item` with `qty = 0` can store a zero entry
(see the counterexample). -/
theorem no_zero_entries_amended (stock : Stock) (item : String) (qty : Int)
    (hitem : (pyStrip item).isEmpty = false) (hqty : 0 < qty) :
    (dictMem item stock = true → dictGet stock item 0 ≤ qty →
      ∃ s, removeItem stock item qty = .ok s ∧ dictMem item s = false) ∧
    (0 ≤ dictGet stock item 0 → ∀ logs ts, ∃ s l,
      addItem stock item qty logs ts = .ok (s, l) ∧
        0 < dictGet s item 0) := by
  have hq : ¬ qty ≤ 0 := by omega
  have hq' : ¬ qty < 0 := by omega
  constructor
  · intro hmem hle
    refine ⟨dictDel stock item, ?_, dictMem_dictDel stock item⟩
    have hng : ¬ (dictGet stock item 0 - qty > 0) := by omega
    simp [removeItem, hitem, hq, hmem, hng]
  · intro hnn logs ts
    refine ⟨dictSet stock item (dictGet stock item 0 + qty),
      (logs.getD []) ++ [ts ++ ": Added " ++ toString qty ++ " of " ++ item],
      ?_, ?_⟩
    · simp [addItem, hitem, hq']
    · rw [dictGet_dictSet_self]
      omega

theorem no_zero_entries_amended_witness :
    ((pyStrip "apple").isEmpty = false ∧ (0 : Int) < 7) ∧
    ((dictMem "apple" [("apple", 7)] = true →
        dictGet [("apple", 7)] "apple" 0 ≤ 7 →
        ∃ s, removeItem [("apple", 7)] "apple" 7 = .ok s ∧
          dictMem "apple" s = false) ∧
      (0 ≤ dictGet [("apple", 7)] "apple" 0 → ∀ logs ts, ∃ s l,
        addItem [("apple", 7)] "apple" 7 logs ts = .ok (s, l) ∧
          0 < dictGet s "apple" 0)) :=
  ⟨by decide,
    no_zero_entries_amended [("apple", 7)] "apple" 7 (by decide) (by decide)⟩

/-- C9 counterexample: with `logs` not supplied, `add_item` still
creates the audit entry.  Lines 36-39 replace a `None` argument by a
fresh local list and unconditionally append the formatted line to it;
the second component of the result is that fabricated list, which holds
exactly the audit entry the claim says is never created.  (The source
then discards this local list, so the caller never receives it.) -/
theorem add_without_logs_still_appends :
    addItem [] "apple" 5 none "T" =
      .ok ([("apple", 5)], ["T: Added 5 of apple"]) := by
  decide

/-- C9 amended: every successful `add_item` appends exactly one audit
line of the form `"<ts>: Added <qty> of <item>"` to the list it works
on: the caller's list when `logs` is supplied, and a freshly fabricated
local list — discarded by the source, hence invisible to the caller —
when `logs` is not supplied.  `ts` stands for the
`datetime.now().isoformat(timespec="seconds")` timestamp of line 38. -/
theorem audit_line_appended (stock : Stock) (item : String) (qty : Int)
    (l : List String) (ts : String)
    (hitem : (pyStrip item).isEmpty = false) (hqty : 0 ≤ qty) :
    (∃ s, addItem stock item qty (some l) ts =
      .ok (s, l ++ [ts ++ ": Added " ++ toString qty ++ " of " ++ item])) ∧
    (∃ s, addItem stock item qty none ts =
      .ok (s, [ts ++ ": Added " ++ toString qty ++ " of " ++ item])) := by
  have hq : ¬ qty < 0 := by omega
  refine ⟨⟨dictSet stock item (dictGet stock item 0 + qty), ?_⟩,
    ⟨dictSet stock item (dictGet stock item 0 + qty), ?_⟩⟩ <;>
    simp [addItem, hitem, hq]

theorem audit_line_appended_witness :
    ((pyStrip "apple").isEmpty = false ∧ (0 : Int) ≤ 5) ∧
    ((∃ s, addItem [] "apple" 5 (some ["old"]) "T" =
        .ok (s, ["old"] ++ ["T: Added 5 of apple"])) ∧
      (∃ s, addItem [] "apple" 5 none "T" =
        .ok (s, ["T: Added 5 of apple"]))) := by
  refine ⟨by decide, ?_⟩
  have h := audit_line_appended [] "apple" 5 ["old"] "T" (by decide) (by decide)
  simpa using h

theorem addSeq_dictGet (item : String)
    (hitem : (pyStrip item).isEmpty = false) :
    ∀ (qtys : List Int), (∀ q ∈ qtys, 0 ≤ q) → ∀ stock : Stock,
      ∃ s, addSeq stock item qtys = .ok s ∧
        dictGet s item 0 = dictGet stock item 0 + qtys.sum := by
  intro qtys
  induction qtys with
  | nil => exact fun _ stock => ⟨stock, rfl, by simp [addSeq]⟩
  | cons q rest ih =>
    intro hq stock
    have hq0 : 0 ≤ q := hq q (by simp)
    have hrest : ∀ x ∈ rest, 0 ≤ x := fun x hx => hq x (by simp [hx])
    have hlt : ¬ q < 0 := by omega
    obtain ⟨s, hs, hget⟩ :=
      ih hrest (dictSet stock item (dictGet stock item 0 + q))
    refine ⟨s, ?_, ?_⟩
    · have hadd : addItem stock item q none "t" =
          .ok (dictSet stock item (dictGet stock item 0 + q),
            ["t" ++ ": Added " ++ toString q ++ " of " ++ item]) := by
        simp [addItem, hitem, hlt]
      simp only [addSeq, hadd]
      exact hs
    · rw [hget, dictGet_dictSet_self]
      simp [List.sum_cons]
      ring

/-- C4: starting from the empty store, a finite sequence of
`add_item(item, qty_i)` calls with non-negative quantities all succeed,
and a subsequent `get_qty(item)` returns the sum of the quantities;
`get_qty` on an item never added returns 0 and never raises. -/
theorem add_then_get_qty_sums (item : String) (qtys : List Int)
    (hitem : (pyStrip item).isEmpty = false) (hq : ∀ q ∈ qtys, 0 ≤ q) :
    getQty [] item = .ok 0 ∧
    ∃ s, addSeq [] item qtys = .ok s ∧ getQty s item = .ok qtys.sum := by
  obtain ⟨s, hs, hget⟩ := addSeq_dictGet item hitem qtys hq []
  refine ⟨by simp [getQty, hitem, dictGet], s, hs, ?_⟩
  simp [getQty, hitem, hget, dictGet]

theorem add_then_get_qty_sums_witness :
    ((pyStrip "apple").isEmpty = false ∧ ∀ q ∈ [(10 : Int), 5], 0 ≤ q) ∧
    (getQty [] "apple" = .ok 0 ∧
      ∃ s, addSeq [] "apple" [10, 5] = .ok s ∧
        getQty s "apple" = .ok ([(10 : Int), 5].sum)) :=
  ⟨⟨by decide, by decide⟩,
    add_then_get_qty_sums "apple" [10, 5] (by decide) (by decide)⟩

theorem pyStrip_data (s : String) :
    (pyStrip s).data = List.rdropWhile Char.isWhitespace
      (s.data.dropWhile Char.isWhitespace) := rfl

theorem pyStrip_idem (s : String) : pyStrip (pyStrip s) = pyStrip s := by
  apply String.ext
  rw [pyStrip_data, pyStrip_data]
  have h1 : List.dropWhile Char.isWhitespace
      (List.rdropWhile Char.isWhitespace
        (s.data.dropWhile Char.isWhitespace)) =
      List.rdropWhile Char.isWhitespace
        (s.data.dropWhile Char.isWhitespace) := by
    obtain ⟨t, ht⟩ := List.rdropWhile_prefix Char.isWhitespace
      (s.data.dropWhile Char.isWhitespace)
    cases hR : List.rdropWhile Char.isWhitespace
        (s.data.dropWhile Char.isWhitespace) with
    | nil => simp
    | cons c R =>
      rw [hR] at ht
      have hL : s.data.dropWhile Char.isWhitespace = c :: (R ++ t) := by
        rw [← ht]
        simp
      have hcne : s.data.dropWhile Char.isWhitespace ≠ [] := by
        rw [hL]
        simp
      have hhead := List.head_dropWhile_not Char.isWhitespace s.data hcne
      have hsome : (s.data.dropWhile Char.isWhitespace).head? = some c := by
        rw [hL]
        rfl
      have hc : (s.data.dropWhile Char.isWhitespace).head hcne = c := by
        have h2 := List.head?_eq_head hcne
        rw [hsome] at h2
        exact (Option.some.inj h2).symm
      rw [hc] at hhead
      simp [List.dropWhile_cons, hhead]
  rw [h1, List.rdropWhile_idempotent]

/-- C10: item names are stored verbatim, not normalized.  For an item
name carrying surrounding whitespace (its strip differs from it but is
non-empty), a successful `add_item` creates or updates the key under
the exact untrimmed string, and `get_qty` on the stripped variant
returns 0 when only the untrimmed key is present. -/
theorem item_names_stored_verbatim (stock : Stock) (item : String)
    (qty : Int) (logs : Option (List String)) (ts : String)
    (h1 : (pyStrip item).isEmpty = false)
    (h2 : pyStrip item ≠ item)
    (h3 : dictMem (pyStrip item) stock = false)
    (h4 : 0 ≤ qty) :
    ∃ s l, addItem stock item qty logs ts = .ok (s, l) ∧
      dictMem item s = true ∧
      dictGet s item 0 = dictGet stock item 0 + qty ∧
      getQty s (pyStrip item) = .ok 0 := by
  have hlt : ¬ qty < 0 := by omega
  refine ⟨dictSet stock item (dictGet stock item 0 + qty),
    (logs.getD []) ++ [ts ++ ": Added " ++ toString qty ++ " of " ++ item],
    by simp [addItem, h1, hlt], ?_, dictGet_dictSet_self _ _ _, ?_⟩
  · exact dictMem_dictSet_self stock item _
  · have hmem : dictMem (pyStrip item)
        (dictSet stock item (dictGet stock item 0 + qty)) = false := by
      rw [dictMem_dictSet_ne stock _ h2]
      exact h3
    have hstrip : (pyStrip (pyStrip item)).isEmpty = false := by
      rw [pyStrip_idem]; exact h1
    simp [getQty, hstrip, dictGet_of_not_mem hmem]

theorem item_names_stored_verbatim_witness :
    ((pyStrip " apple ").isEmpty = false ∧ pyStrip " apple " ≠ " apple " ∧
      dictMem (pyStrip " apple ") [("pear", 3)] = false ∧ (0 : Int) ≤ 4) ∧
    (∃ s l, addItem [("pear", 3)] " apple " 4 none "T" = .ok (s, l) ∧
      dictMem " apple " s = true ∧
      dictGet s " apple " 0 = dictGet [("pear", 3)] " apple " 0 + 4 ∧
      getQty s (pyStrip " apple ") = .ok 0) :=
  ⟨by decide,
    item_names_stored_verbatim [("pear", 3)] " apple " 4 none "T"
      (by decide) (by decide) (by decide) (by decide)⟩

theorem dictMem_iff_mem_keys {k : String} {d : Stock} :
    dictMem k d = true ↔ k ∈ d.map Prod.fst := by
  induction d with
  | nil => simp [dictMem]
  | cons p rest ih =>
    by_cases hp : p.1 = k
    · simp [dictMem, hp]
    · simp [dictMem, hp, ih, Ne.symm hp]

theorem mem_low_names (t : Int) :
    ∀ stock : Stock, (stock.map Prod.fst).Nodup → ∀ name : String,
      (name ∈ (stock.filter (fun p => p.2 < t)).map Prod.fst ↔
        dictMem name stock = true ∧ dictGet stock name 0 < t) := by
  intro stock
  induction stock with
  | nil => intro _ name; simp [dictMem, dictGet]
  | cons p rest ih =>
    intro hnd name
    rw [List.map_cons, List.nodup_cons] at hnd
    rw [List.filter_cons]
    by_cases hq : p.2 < t
    · rw [if_pos (by simpa using hq)]
      by_cases hname : p.1 = name
      · simp [dictMem, dictGet, hname, hq]
      · rw [List.map_cons]
        simp only [List.mem_cons]
        rw [ih hnd.2 name]
        simp [dictMem, dictGet, hname, Ne.symm hname]
    · rw [if_neg (by simpa using hq)]
      by_cases hname : p.1 = name
      · have hnm : dictMem name rest = false := by
          rw [← Bool.not_eq_true, dictMem_iff_mem_keys]
          rw [hname] at hnd
          exact hnd.1
        rw [ih hnd.2 name]
        simp [dictMem, dictGet, hname, hnm, hq]
      · rw [ih hnd.2 name]
        simp [dictMem, dictGet, hname, Ne.symm hname]

/-- C8: for a non-negative threshold, `check_low_items` returns exactly
the names of the stored items whose quantity is strictly below the
threshold (membership characterization; order is mapping iteration
order), and a negative threshold raises `ValueError`
(`InvalidArgument`).  The function reads the store and builds a fresh
list: it performs no mutation (it is a pure function of the store in
the embedding).  Non-integer thresholds are outside the typed
embedding. -/
theorem check_low_items_spec (stock : Stock) (t : Int)
    (hnd : (stock.map Prod.fst).Nodup) :
    (t < 0 → checkLowItems stock t = .error .invalidArgument) ∧
    (0 ≤ t → ∃ l, checkLowItems stock t = .ok l ∧
      ∀ name : String, (name ∈ l ↔
        dictMem name stock = true ∧ dictGet stock name 0 < t)) := by
  constructor
  · intro h
    simp [checkLowItems, h]
  · intro h
    have h' : ¬ t < 0 := by omega
    exact ⟨(stock.filter (fun p => p.2 < t)).map Prod.fst,
      by simp [checkLowItems, h'], fun name => mem_low_names t stock hnd name⟩

theorem check_low_items_spec_witness :
    ([("a", (2 : Int)), ("b", 9)].map Prod.fst).Nodup ∧
    (((5 : Int) < 0 →
        checkLowItems [("a", 2), ("b", 9)] 5 = .error .invalidArgument) ∧
      (0 ≤ (5 : Int) → ∃ l, checkLowItems [("a", 2), ("b", 9)] 5 = .ok l ∧
        ∀ name : String, (name ∈ l ↔
          dictMem name [("a", 2), ("b", 9)] = true ∧
            dictGet [("a", 2), ("b", 9)] name 0 < 5))) :=
  ⟨by decide, check_low_items_spec [("a", 2), ("b", 9)] 5 (by decide)⟩

theorem clean_foldl (fields : List (String × JVal)) :
    ∀ acc : Stock, (∀ k ∈ fields.map Prod.fst, dictMem k acc = false) →
      (fields.map Prod.fst).Nodup →
      fields.foldl cleanStep acc = acc ++ fields.filterMap keepEntry := by
  induction fields with
  | nil =>
    intro acc _ _
    simp
  | cons kv rest ih =>
    intro acc hdisj hnd
    rw [List.map_cons, List.nodup_cons] at hnd
    have hk : dictMem kv.1 acc = false := hdisj kv.1 (by simp)
    rw [List.foldl_cons, List.filterMap_cons]
    cases hpi : pyIntOfJVal kv.2 with
    | none =>
      have hstep : cleanStep acc kv = acc := by simp [cleanStep, hpi]
      have hke : keepEntry kv = none := by simp [keepEntry, hpi]
      rw [hstep, hke]
      exact ih acc (fun k hk2 => hdisj k (by simp [hk2])) hnd.2
    | some n =>
      by_cases hn : 0 ≤ n
      · have hstep : cleanStep acc kv = acc ++ [(kv.1, n)] := by
          simp [cleanStep, hpi, hn, dictSet_of_not_mem hk]
        have hke : keepEntry kv = some (kv.1, n) := by
          simp [keepEntry, hpi, hn]
        rw [hstep, hke]
        have hdisj' : ∀ k ∈ rest.map Prod.fst,
            dictMem k (acc ++ [(kv.1, n)]) = false := by
          intro k hk2
          rw [dictMem_append]
          have h1 : dictMem k acc = false := hdisj k (by simp [hk2])
          have h2 : kv.1 ≠ k := fun heq => hnd.1 (heq ▸ hk2)
          simp [dictMem, h1, h2]
        rw [ih (acc ++ [(kv.1, n)]) hdisj' hnd.2]
        simp
      · have hstep : cleanStep acc kv = acc := by simp [cleanStep, hpi, hn]
        have hke : keepEntry kv = none := by simp [keepEntry, hpi, hn]
        rw [hstep, hke]
        exact ih acc (fun k hk2 => hdisj k (by simp [hk2])) hnd.2

theorem cleanFields_eq (fields : List (String × JVal))
    (hnd : (fields.map Prod.fst).Nodup) :
    cleanFields fields = fields.filterMap keepEntry := by
  have h := clean_foldl fields [] (by intro k _; simp [dictMem]) hnd
  simpa [cleanFields] using h

/-- C3 counterexample: the cleaning loop does NOT keep exactly the
entries whose value is a non-negative integer.  Python `bool` is a
subclass of `int`, so `isinstance(True, int)` holds and `True >= 0`
holds: loading the object `{"x": true}` keeps the entry (as quantity 1)
instead of dropping it, while the spec's rule as worded
(`specCleanFields`) drops it. -/
theorem load_keeps_json_booleans :
    loadData [] (.json (.jobj [("x", .jbool true)])) = [("x", 1)] ∧
    specCleanFields [("x", .jbool true)] = [] := by
  decide

/-- C3 amended: for every prior store, loading a file that parses to a
JSON object replaces `stock_data` wholesale (the prior store does not
appear in the result) with exactly the entries kept by the per-entry
rule `keepEntry`, in object order: the key is a string (always true for
parsed JSON) and the value passes Python's
`isinstance(value, int) and value >= 0`, which keeps non-negative
integers AND JSON booleans (`true` as 1, `false` as 0), dropping
everything else; e.g. `{"x": 3, "y": -1, "z": "bad"}` yields exactly
`{"x": 3}`. -/
theorem load_object_replaces_wholesale (stock : Stock)
    (fields : List (String × JVal))
    (hnd : (fields.map Prod.fst).Nodup) :
    loadData stock (.json (.jobj fields)) = fields.filterMap keepEntry := by
  simpa [loadData] using cleanFields_eq fields hnd

theorem load_object_replaces_wholesale_witness :
    (([("x", JVal.jint 3), ("y", JVal.jint (-1)),
        ("z", JVal.jstr "bad")].map Prod.fst).Nodup) ∧
    loadData [("old", 1)]
        (.json (.jobj [("x", .jint 3), ("y", .jint (-1)),
          ("z", .jstr "bad")])) =
      List.filterMap keepEntry
        [("x", JVal.jint 3), ("y", JVal.jint (-1)),
          ("z", JVal.jstr "bad")] ∧
    List.filterMap keepEntry
        [("x", JVal.jint 3), ("y", JVal.jint (-1)),
          ("z", JVal.jstr "bad")] = [("x", 3)] :=
  ⟨by decide,
    load_object_replaces_wholesale [("old", 1)]
      [("x", .jint 3), ("y", .jint (-1)), ("z", .jstr "bad")] (by decide),
    by decide⟩

theorem filterMap_keep_jint (stock : Stock)
    (hpos : ∀ p ∈ stock, 0 ≤ p.2) :
    List.filterMap (fun p => keepEntry (p.1, JVal.jint p.2)) stock
      = stock := by
  induction stock with
  | nil => simp
  | cons p rest ih =>
    have h0 : 0 ≤ p.2 := hpos p (by simp)
    rw [List.filterMap_cons]
    have hke : keepEntry (p.1, JVal.jint p.2) = some (p.1, p.2) := by
      simp [keepEntry, pyIntOfJVal, h0]
    rw [hke, ih (fun x hx => hpos x (by simp [hx]))]

/-- C5: for a store whose quantities are all non-negative (which also
implies integer values in the embedding), `save_data` followed by
`load_data` on the unchanged file restores a mapping equal to the saved
one, whatever the in-memory state was in between. -/
theorem save_load_round_trip (prior stock : Stock)
    (hnd : (stock.map Prod.fst).Nodup)
    (hpos : ∀ p ∈ stock, 0 ≤ p.2) :
    loadData prior (saveData stock) = stock := by
  have hkeys : ((stock.map (fun p => (p.1, JVal.jint p.2))).map
      Prod.fst).Nodup := by
    simpa [List.map_map, Function.comp] using hnd
  have h1 : loadData prior (saveData stock) =
      (stock.map (fun p => (p.1, JVal.jint p.2))).filterMap keepEntry := by
    simpa [saveData, loadData] using
      cleanFields_eq (stock.map (fun p => (p.1, JVal.jint p.2))) hkeys
  rw [h1, List.filterMap_map]
  exact filterMap_keep_jint stock hpos

theorem save_load_round_trip_witness :
    (([("apple", (7 : Int)), ("pear", 0)].map Prod.fst).Nodup ∧
      ∀ p ∈ [("apple", (7 : Int)), ("pear", 0)], 0 ≤ p.2) ∧
    loadData [("junk", 5)] (saveData [("apple", 7), ("pear", 0)]) =
      [("apple", 7), ("pear", 0)] :=
  ⟨⟨by decide, by decide⟩,
    save_load_round_trip [("junk", 5)] [("apple", 7), ("pear", 0)]
      (by decide) (by decide)⟩

end InventorySystem
